import Mathlib

/-!
# Verification of the fidelity-pair selector of
# `examples/braket_features/Allocating_Qubits_on_QPU_Devices.ipynb`

The only locally implemented routine of the repository is the Python
function `find_qubit_pair`, which scans the device calibration table
(`device.properties.provider.specs['2Q']`, a dict from a qubit-pair label
such as `"21-36"` to a per-gate fidelity record such as
`{'fCZ': 0.89, 'fXY': 0.92}`) for the entry with the highest fidelity of a
requested two-qubit gate, then parses the selected hyphen-delimited pair
label into two integers.

We embed the function shallowly:

* a Python dict becomes an association list preserving iteration
  (insertion) order, with keys assumed distinct as in every Python dict;
* a Python float fidelity becomes a rational number (the function only
  compares fidelities, so the order embedding of the floats into `ℚ` is
  exact);
* the dynamically typed `gate` argument becomes the sum type `PyVal`;
* each exception the body can raise becomes a constructor of `PyError`:
  the two local `raise ValueError(...)` statements, the `ValueError`
  raised by the builtin `int()` on a non-numeric literal, the
  `UnboundLocalError` raised by reading `best_pair` when the loop never
  assigned it, and the `IndexError` raised by `best_pair[i]` when the
  scan for `'-'` runs past the end of the label.
-/

set_option autoImplicit false

namespace AllocQubits

/-- A Python runtime value, as far as `find_qubit_pair`'s `gate` argument
is concerned: a string, or one of the non-string shapes the notebook
could pass. -/
inductive PyVal where
  | str (s : String)
  | int (n : Int)
  | float (q : ℚ)
  | boolV (b : Bool)
  | noneV
  deriving DecidableEq

/-- `isinstance(gate, str)`. -/
def PyVal.isStr : PyVal → Bool
  | .str _ => true
  | _ => false

/-- The exceptions the body of `find_qubit_pair` can raise.
`valueErrorNotString` is `ValueError('The input gate must be a string
type.')`; `valueErrorNotNative` is `ValueError('The input gate must be
either CPHASE, CZ or XY.')`; `valueErrorIntParse s` is the `ValueError`
raised by the builtin `int(s)` on a non-numeric literal `s`;
`unboundLocalError` is the `UnboundLocalError` raised by reading
`best_pair` when the loop never assigned it; `indexError` is the
`IndexError` raised by `best_pair[i]` past the end of the label. -/
inductive PyError where
  | valueErrorNotString
  | valueErrorNotNative
  | valueErrorIntParse (s : String)
  | unboundLocalError
  | indexError
  deriving DecidableEq

/-- The local `ValueError`s raised by the two explicit `raise` statements
of `find_qubit_pair` (as opposed to exceptions coming out of builtins). -/
def PyError.isLocalValueError : PyError → Bool
  | .valueErrorNotString => true
  | .valueErrorNotNative => true
  | _ => false

/-- A per-gate fidelity record: a dict from a key such as `"fCZ"` to a
fidelity score.  Iteration order is the list order; keys are distinct. -/
abbrev FidRecord := List (String × ℚ)

/-- The calibration table `device.properties.provider.specs['2Q']`: a dict
from a qubit-pair label to its fidelity record. -/
abbrev CalTable := List (String × FidRecord)

/-- Python dict lookup `d[k]` / `k in d.keys()` on a fidelity record:
the first binding of the key (keys of a dict are distinct). -/
def lookupFid (k : String) : FidRecord → Option ℚ
  | [] => none
  | (k', v) :: rest => if k' = k then some v else lookupFid k rest

/-- The fidelity the table entry `e` defines for gate `g`:
`calibration_2Q[pair]['f' + gate]` when `('f' + gate) in
calibration_2Q[pair].keys()`, and `none` otherwise. -/
def entryFid (g : String) (e : String × FidRecord) : Option ℚ :=
  lookupFid ("f" ++ g) e.2

/-- `gate_list = ['CPHASE', 'CZ', 'XY']`. -/
def gate_list : List String := ["CPHASE", "CZ", "XY"]

/-- The `for pair in calibration_2Q.keys()` loop of `find_qubit_pair`,
with the running state `highest_fidelity` (initially `0`) and `best_pair`
(initially unassigned, modelled as `none`) passed explicitly:

```python
for pair in calibration_2Q.keys():
    if ('f'+ gate) in calibration_2Q[pair].keys():
        if calibration_2Q[pair]['f'+ gate] > highest_fidelity:
            highest_fidelity = calibration_2Q[pair]['f'+ gate]
            best_pair = pair
```
-/
def findLoop (g : String) : CalTable → ℚ → Option String → ℚ × Option String
  | [], hf, bp => (hf, bp)
  | (pair, r) :: rest, hf, bp =>
    match entryFid g (pair, r) with
    | some f => if hf < f then findLoop g rest f (some pair) else findLoop g rest hf bp
    | none => findLoop g rest hf bp

/-- `cs` is a non-empty string of decimal digits. -/
def isDigits (cs : List Char) : Bool :=
  !cs.isEmpty && cs.all (·.isDigit)

/-- The numeric value of a string of decimal digits. -/
def digitsVal (cs : List Char) : Nat :=
  cs.foldl (fun n c => 10 * n + (c.toNat - ('0').toNat)) 0

/-- The Python builtin `int` applied to a string: an optional sign
followed by at least one decimal digit; anything else raises
`ValueError("invalid literal for int() ...")`. -/
def pyInt (s : String) : Except PyError Int :=
  match s.data with
  | [] => .error (.valueErrorIntParse s)
  | c :: ds =>
    if c = '-' then
      if isDigits ds then .ok (-(digitsVal ds : Int)) else .error (.valueErrorIntParse s)
    else if c = '+' then
      if isDigits ds then .ok ((digitsVal ds : Int)) else .error (.valueErrorIntParse s)
    else
      if isDigits (c :: ds) then .ok ((digitsVal (c :: ds) : Int))
      else .error (.valueErrorIntParse s)

/-- The character scan

```python
i = 1
while best_pair[i] is not '-':
    q1 += best_pair[i]
    i += 1
```

on the tail of the label, accumulating into `q1` (`acc`) until the first
`'-'`; running past the end of the label raises `IndexError`.  Returns
the accumulated prefix and the characters after the `'-'`
(`best_pair[i+1:]`). -/
def scanToDash : List Char → String → Except PyError (String × List Char)
  | [], _ => .error .indexError
  | c :: cs, acc =>
    if c = '-' then .ok (acc, cs) else scanToDash cs (acc.push c)

/-- The label-parsing tail of `find_qubit_pair`:

```python
q1 = best_pair[0]
i = 1
while best_pair[i] is not '-':
    q1 += best_pair[i]
    i += 1
q1 = int(q1)
q2 = int(best_pair[i+1:])
```

(`best_pair[0]` on an empty label raises `IndexError`; in CPython
single-character strings obtained by indexing are interned, so the
identity test `is not '-'` coincides with inequality). -/
def parsePair (s : String) : Except PyError (Int × Int) :=
  match s.data with
  | [] => .error .indexError
  | c0 :: cs => do
    let (q1s, rest) ← scanToDash cs (String.singleton c0)
    let q1 ← pyInt q1s
    let q2 ← pyInt (String.mk rest)
    return (q1, q2)

/-- `find_qubit_pair(gate)` of the notebook, with the calibration table
`calibration_2Q = device.properties.provider.specs['2Q']` passed as an
argument.  Returns `(q1, q2, highest_fidelity)` or the exception the body
raises. -/
def find_qubit_pair (gate : PyVal) (calibration_2Q : CalTable) :
    Except PyError (Int × Int × ℚ) :=
  match gate with
  | .str g =>
    if g ∉ gate_list then
      .error .valueErrorNotNative
    else
      match findLoop g calibration_2Q 0 none with
      | (_, none) => .error .unboundLocalError
      | (hf, some best_pair) => do
        let (q1, q2) ← parsePair best_pair
        return (q1, q2, hf)
  | _ => .error .valueErrorNotString

/-- Whether a run of `find_qubit_pair` raised one of its two locally
defined `ValueError`s. -/
def raisesLocal (r : Except PyError (Int × Int × ℚ)) : Bool :=
  match r with
  | .error e => e.isLocalValueError
  | .ok _ => false

/-- The gate argument is rejected by the two argument checks: a
non-string, or a string outside `gate_list`. -/
def invalidGateArg : PyVal → Bool
  | .str s => !(gate_list.contains s)
  | _ => true

/-- A well-formed qubit-pair label as the data model defines it: a string
of decimal digits, a hyphen, and a second string of decimal digits. -/
def goodLabel (s : String) : Bool :=
  match scanToDash s.data "" with
  | .ok (d1, d2) => isDigits d1.data && isDigits d2
  | .error _ => false

/-- The program state visible to `find_qubit_pair`: the device
calibration table it reads through `device.properties.provider.specs`.
Used to state that the function is a pure reader. -/
structure DeviceState where
  specs2Q : CalTable
  deriving DecidableEq

/-- Reading `device.properties.provider.specs['2Q']` from the program
state: returns the table and leaves the state as it was. -/
def readSpecs (st : DeviceState) : CalTable × DeviceState :=
  (st.specs2Q, st)

/-- `find_qubit_pair` as a state transformer over the program state:
reads the calibration table from the state and runs the body, threading
the state through. -/
def find_qubit_pair_run (gate : PyVal) (st : DeviceState) :
    Except PyError (Int × Int × ℚ) × DeviceState :=
  let (tbl, st') := readSpecs st
  (find_qubit_pair gate tbl, st')

/-- A concrete calibration table in the shape of the Rigetti data the
notebook reads: well-formed pair labels, fidelities in the unit interval,
with the maximal `fCZ` fidelity at pair `"21-36"`. -/
def tblA : CalTable :=
  [("10-11", [("fXY", mkRat 1 2)]),
   ("21-36", [("fCZ", mkRat 9 10), ("fXY", mkRat 1 4)]),
   ("0-7", [("fCZ", mkRat 3 4)])]

/-- A one-entry table whose only `fCZ` fidelity is `0`. -/
def tblZero : CalTable := [("0-1", [("fCZ", 0)])]

/-- A table in which every entry defining `fCZ` carries fidelity `0`,
while a positive fidelity exists for another gate. -/
def tblZeros : CalTable :=
  [("0-1", [("fCZ", 0)]), ("2-3", [("fXY", mkRat 9 10), ("fCZ", 0)])]

/-- A table with two entries tied at the maximal `fCZ` fidelity. -/
def tblTie : CalTable :=
  [("1-2", [("fCZ", mkRat 9 10)]), ("3-4", [("fCZ", mkRat 9 10)])]

/-- A mixed table whose `fCZ` fidelities are negative, zero and positive:
only the positive entry can be selected. -/
def tblMixed : CalTable :=
  [("0-1", [("fCZ", -(mkRat 1 2))]),
   ("2-3", [("fCZ", 0)]),
   ("4-5", [("fCZ", mkRat 7 10)])]

/-! ## Lemmas about the label-parsing tail -/

theorem data_push (a : String) (c : Char) : (a.push c).data = a.data ++ [c] := rfl

theorem data_singleton (c : Char) : (String.singleton c).data = [c] := rfl

/-- The character scan consumes exactly the characters before the first
hyphen. -/
theorem scanToDash_append (d1 d2 : List Char) (h : '-' ∉ d1) :
    ∀ acc : String, scanToDash (d1 ++ '-' :: d2) acc = .ok (String.mk (acc.data ++ d1), d2) := by
  induction d1 with
  | nil => intro acc; simp [scanToDash]
  | cons c cs ih =>
    intro acc
    have hc : c ≠ '-' := fun hc => h (hc ▸ List.mem_cons_self c cs)
    have hcs : '-' ∉ cs := fun hm => h (List.mem_cons_of_mem c hm)
    rw [List.cons_append, scanToDash, if_neg hc, ih hcs (acc.push c)]
    simp [data_push]

/-- The only exception the character scan raises is `IndexError`. -/
theorem scanToDash_error (cs : List Char) :
    ∀ (acc : String) (e : PyError), scanToDash cs acc = .error e → e = .indexError := by
  induction cs with
  | nil => intro acc e h; simpa [scanToDash] using h.symm
  | cons c rest ih =>
    intro acc e h
    by_cases hc : c = '-'
    · simp [scanToDash, hc] at h
    · simp only [scanToDash, hc, if_false, ite_false] at h
      exact ih (acc.push c) e h

/-- A successful character scan splits the input at its first hyphen. -/
theorem scanToDash_ok (cs : List Char) :
    ∀ (acc out1 : String) (out2 : List Char), scanToDash cs acc = .ok (out1, out2) →
      ∃ pre, cs = pre ++ '-' :: out2 ∧ '-' ∉ pre ∧ out1.data = acc.data ++ pre := by
  induction cs with
  | nil => intro acc out1 out2 h; simp [scanToDash] at h
  | cons c rest ih =>
    intro acc out1 out2 h
    by_cases hc : c = '-'
    · subst hc
      simp only [scanToDash, if_true, ite_true] at h
      obtain ⟨h1, h2⟩ := by simpa using h
      exact ⟨[], by simp [h2], by simp, by simp [h1]⟩
    · simp only [scanToDash, hc, if_false, ite_false] at h
      obtain ⟨pre, hsplit, hnm, hdata⟩ := ih (acc.push c) out1 out2 h
      refine ⟨c :: pre, by simp [hsplit], ?_, ?_⟩
      · intro hm
        rcases List.mem_cons.mp hm with h' | h'
        · exact hc h'.symm
        · exact hnm h'
      · simpa [data_push] using hdata

/-- `int` succeeds on a non-empty all-digit literal and returns its
decimal value. -/
theorem pyInt_digits (ds : List Char) (h : isDigits ds = true) :
    pyInt (String.mk ds) = .ok ((digitsVal ds : Int)) := by
  cases ds with
  | nil => simp [isDigits] at h
  | cons c cs =>
    have hcd : c.isDigit = true := by
      have h' := h
      simp only [isDigits, Bool.and_eq_true, List.all_eq_true] at h'
      exact h'.2 c (List.mem_cons_self c cs)
    have hc1 : c ≠ '-' := by
      intro he; rw [he] at hcd; exact absurd hcd (by decide)
    have hc2 : c ≠ '+' := by
      intro he; rw [he] at hcd; exact absurd hcd (by decide)
    simp [pyInt, hc1, hc2, h]

/-- The only exception `int` raises is its `ValueError`. -/
theorem pyInt_error (s : String) (e : PyError) (h : pyInt s = .error e) :
    e = .valueErrorIntParse s := by
  unfold pyInt at h
  repeat' split at h
  all_goals simp_all

/-- Parsing a label made of digits, a hyphen and digits succeeds and
returns the decimal values of the two digit groups. -/
theorem parsePair_digits (d1 d2 : List Char) (h1 : isDigits d1 = true) (h2 : isDigits d2 = true) :
    parsePair (String.mk (d1 ++ '-' :: d2)) =
      .ok ((digitsVal d1 : Int), (digitsVal d2 : Int)) := by
  cases d1 with
  | nil => simp [isDigits] at h1
  | cons c0 cs =>
    have hall : ∀ c ∈ c0 :: cs, c.isDigit = true := by
      simp only [isDigits, Bool.and_eq_true, List.all_eq_true] at h1
      exact h1.2
    have hnd : '-' ∉ cs := fun hm =>
      absurd (hall '-' (List.mem_cons_of_mem c0 hm)) (by decide)
    simp only [parsePair, List.cons_append]
    rw [scanToDash_append cs d2 hnd (String.singleton c0)]
    simp only [Bind.bind, Except.bind, data_singleton, List.singleton_append]
    rw [pyInt_digits (c0 :: cs) h1, pyInt_digits d2 h2]
    rfl

/-- The label parser never raises one of the two locally defined
`ValueError`s: its exceptions are `IndexError` and `int()`'s
`ValueError`. -/
theorem parsePair_error (s : String) (e : PyError) (h : parsePair s = .error e) :
    e.isLocalValueError = false := by
  obtain ⟨data⟩ := s
  cases data with
  | nil =>
    simp only [parsePair] at h
    obtain rfl : PyError.indexError = e := by simpa using h
    rfl
  | cons c0 cs =>
    simp only [parsePair] at h
    rcases hs : scanToDash cs (String.singleton c0) with e' | ⟨q1s, rest⟩ <;>
      rw [hs] at h <;> simp only [Bind.bind, Except.bind] at h
    · obtain rfl : e' = e := by simpa using h
      rw [scanToDash_error cs (String.singleton c0) e' hs]
      rfl
    · rcases hq1 : pyInt q1s with e1 | q1 <;> rw [hq1] at h
      · obtain rfl : e1 = e := by simpa using h
        rw [pyInt_error q1s e1 hq1]
        rfl
      · rcases hq2 : pyInt (String.mk rest) with e2 | q2 <;> rw [hq2] at h
        · obtain rfl : e2 = e := by simpa using h
          rw [pyInt_error _ e2 hq2]
          rfl
        · simp [pure, Except.pure] at h

/-- A well-formed label splits into its two digit groups. -/
theorem goodLabel_split (s : String) (h : goodLabel s = true) :
    ∃ d1 d2, s.data = d1 ++ '-' :: d2 ∧ isDigits d1 = true ∧ isDigits d2 = true := by
  unfold goodLabel at h
  rcases hs : scanToDash s.data "" with e | ⟨d1s, d2⟩ <;> rw [hs] at h
  · simp at h
  · simp only [Bool.and_eq_true] at h
    obtain ⟨pre, hsplit, _, hdata⟩ := scanToDash_ok s.data "" d1s d2 hs
    refine ⟨pre, d2, hsplit, ?_, h.2⟩
    have hpre : d1s.data = pre := by simpa using hdata
    rw [← hpre]
    exact h.1

/-- Parsing a well-formed label succeeds with two natural numbers. -/
theorem parsePair_goodLabel (s : String) (h : goodLabel s = true) :
    ∃ n1 n2 : Nat, parsePair s = .ok ((n1 : Int), (n2 : Int)) := by
  obtain ⟨d1, d2, hsplit, h1, h2⟩ := goodLabel_split s h
  refine ⟨digitsVal d1, digitsVal d2, ?_⟩
  have hms : s = String.mk (d1 ++ '-' :: d2) := by
    obtain ⟨data⟩ := s
    exact congrArg String.mk (by simpa using hsplit)
  rw [hms, parsePair_digits d1 d2 h1 h2]

/-! ## Lemmas about the scanning loop -/

/-- A successful record lookup returns a value stored in the record. -/
theorem lookupFid_mem (k : String) (r : FidRecord) (v : ℚ) (h : lookupFid k r = some v) :
    (k, v) ∈ r := by
  induction r with
  | nil => simp [lookupFid] at h
  | cons kv rest ih =>
    obtain ⟨k', v'⟩ := kv
    by_cases hk : k' = k
    · subst hk
      rw [lookupFid, if_pos rfl] at h
      obtain rfl := Option.some.inj h
      exact List.mem_cons_self _ _
    · rw [lookupFid, if_neg hk] at h
      exact List.mem_cons_of_mem _ (ih h)

/-- If no table entry defines the requested gate, the loop leaves both
running variables untouched. -/
theorem findLoop_all_none (g : String) (t : CalTable)
    (h : ∀ e ∈ t, entryFid g e = none) :
    ∀ (m : ℚ) (b : Option String), findLoop g t m b = (m, b) := by
  induction t with
  | nil => intro m b; rfl
  | cons e rest ih =>
    intro m b
    obtain ⟨pair, r⟩ := e
    have hrest := ih (fun e' he' => h e' (List.mem_cons_of_mem _ he')) m b
    rw [findLoop]
    split
    · rename_i f0 he
      rw [h (pair, r) (List.mem_cons_self _ _)] at he
      cases he
    · exact hrest

/-- If every entry defining the requested gate carries fidelity `0`, the
loop never updates its running variables: a fidelity equal to the
initial `highest_fidelity = 0` does not pass the strict comparison. -/
theorem findLoop_all_zero (g : String) (t : CalTable)
    (h : ∀ e ∈ t, entryFid g e = none ∨ entryFid g e = some 0) :
    findLoop g t 0 none = (0, none) := by
  induction t with
  | nil => rfl
  | cons e rest ih =>
    obtain ⟨pair, r⟩ := e
    have hrest := ih (fun e' he' => h e' (List.mem_cons_of_mem _ he'))
    rw [findLoop]
    split
    · rename_i f0 he
      rcases h (pair, r) (List.mem_cons_self _ _) with h0 | h0 <;> rw [h0] at he
      · cases he
      · obtain rfl : (0 : ℚ) = f0 := Option.some.inj he
        rw [if_neg (lt_irrefl (0 : ℚ))]
        exact hrest
    · exact hrest

/-- Full characterization of the scanning loop, by induction over the
table with the running state generalized.  Either no entry beats the
running maximum `m` and the state is returned unchanged, or the final
state holds a strictly larger fidelity together with the label of the
FIRST entry carrying it: every entry before the selected one is strictly
below the final fidelity, every entry after it is at most the final
fidelity. -/
theorem findLoop_cases (g : String) :
    ∀ (t : CalTable) (m : ℚ) (b : Option String) (hf : ℚ) (bp : Option String),
      findLoop g t m b = (hf, bp) →
      (hf = m ∧ bp = b ∧ ∀ e ∈ t, ∀ f, entryFid g e = some f → f ≤ m) ∨
      (m < hf ∧ ∃ t1 p r t2,
        t = t1 ++ (p, r) :: t2 ∧
        bp = some p ∧
        entryFid g (p, r) = some hf ∧
        (∀ e ∈ t1, ∀ f, entryFid g e = some f → f < hf) ∧
        (∀ e ∈ t2, ∀ f, entryFid g e = some f → f ≤ hf)) := by
  intro t
  induction t with
  | nil =>
    intro m b hf bp hrun
    obtain ⟨rfl, rfl⟩ : m = hf ∧ b = bp := by
      simpa [findLoop, Prod.ext_iff] using hrun
    exact Or.inl ⟨rfl, rfl, by simp⟩
  | cons e rest ih =>
    intro m b hf bp hrun
    obtain ⟨pair, r⟩ := e
    rw [findLoop] at hrun
    split at hrun
    · rename_i f0 he
      by_cases hcmp : m < f0
      · rw [if_pos hcmp] at hrun
        rcases ih f0 (some pair) hf bp hrun with ⟨h1, h2, h3⟩ |
          ⟨hlt, t1, p, r', t2, hsplit, hbp, hfid, hbefore, hafter⟩
        · subst h1
          exact Or.inr ⟨hcmp, [], pair, r, rest, by simp, h2, he, by simp, h3⟩
        · refine Or.inr ⟨hcmp.trans hlt, (pair, r) :: t1, p, r', t2, by simp [hsplit],
            hbp, hfid, ?_, hafter⟩
          intro e' he' f hf'
          rcases List.mem_cons.mp he' with rfl | hmem
          · rw [he] at hf'
            obtain rfl : f0 = f := Option.some.inj hf'
            exact hlt
          · exact hbefore e' hmem f hf'
      · rw [if_neg hcmp] at hrun
        have hle0 : f0 ≤ m := le_of_not_lt hcmp
        rcases ih m b hf bp hrun with ⟨h1, h2, h3⟩ |
          ⟨hlt, t1, p, r', t2, hsplit, hbp, hfid, hbefore, hafter⟩
        · refine Or.inl ⟨h1, h2, ?_⟩
          intro e' he' f hf'
          rcases List.mem_cons.mp he' with rfl | hmem
          · rw [he] at hf'
            obtain rfl : f0 = f := Option.some.inj hf'
            exact hle0
          · exact h3 e' hmem f hf'
        · refine Or.inr ⟨hlt, (pair, r) :: t1, p, r', t2, by simp [hsplit], hbp, hfid,
            ?_, hafter⟩
          intro e' he' f hf'
          rcases List.mem_cons.mp he' with rfl | hmem
          · rw [he] at hf'
            obtain rfl : f0 = f := Option.some.inj hf'
            exact hle0.trans_lt hlt
          · exact hbefore e' hmem f hf'
    · rename_i he
      rcases ih m b hf bp hrun with ⟨h1, h2, h3⟩ |
        ⟨hlt, t1, p, r', t2, hsplit, hbp, hfid, hbefore, hafter⟩
      · refine Or.inl ⟨h1, h2, ?_⟩
        intro e' he' f hf'
        rcases List.mem_cons.mp he' with rfl | hmem
        · rw [he] at hf'; cases hf'
        · exact h3 e' hmem f hf'
      · refine Or.inr ⟨hlt, (pair, r) :: t1, p, r', t2, by simp [hsplit], hbp, hfid,
          ?_, hafter⟩
        intro e' he' f hf'
        rcases List.mem_cons.mp he' with rfl | hmem
        · rw [he] at hf'; cases hf'
        · exact hbefore e' hmem f hf'

/-- Decomposition of a successful run: the gate was accepted, the loop
selected a label, and parsing that label produced the returned pair. -/
theorem find_qubit_pair_ok_elim (g : String) (t : CalTable) (q1 q2 : Int) (f : ℚ)
    (h : find_qubit_pair (.str g) t = .ok (q1, q2, f)) :
    g ∈ gate_list ∧ ∃ p, findLoop g t 0 none = (f, some p) ∧ parsePair p = .ok (q1, q2) := by
  simp only [find_qubit_pair] at h
  by_cases hg : g ∈ gate_list
  · rw [if_neg (not_not_intro hg)] at h
    refine ⟨hg, ?_⟩
    split at h
    · cases h
    · rename_i hf bp heq
      rcases hp : parsePair bp with e | ⟨a, b⟩ <;> rw [hp] at h <;>
        simp only [Bind.bind, Except.bind, pure, Except.pure] at h
      · cases h
      · obtain ⟨rfl, rfl, rfl⟩ : a = q1 ∧ b = q2 ∧ hf = f := by simpa using h
        exact ⟨bp, heq, hp⟩
  · rw [if_pos hg] at h
    cases h

/-- Forward computation of a successful run from its pieces. -/
theorem find_qubit_pair_ok_intro (g : String) (t : CalTable) (p : String)
    (q1 q2 : Int) (hf : ℚ) (hg : g ∈ gate_list)
    (hrun : findLoop g t 0 none = (hf, some p))
    (hparse : parsePair p = .ok (q1, q2)) :
    find_qubit_pair (.str g) t = .ok (q1, q2, hf) := by
  simp only [find_qubit_pair]
  rw [if_neg (not_not_intro hg), hrun]
  simp only [Bind.bind, Except.bind, hparse, pure, Except.pure]

/-! ## The claims -/

/-- Claim C1, amended: for every gate label in `{CPHASE, CZ, XY}` and
every calibration table with well-formed pair labels, if at least one
entry defines a STRICTLY POSITIVE fidelity for that gate, then
`find_qubit_pair` returns normally, its fidelity is the maximum over all
entries defining the gate, and its qubit pair is parsed from the label of
an entry carrying that maximal fidelity.  (As originally stated — an
entry merely defining a fidelity — the claim fails on a table whose only
defined fidelity is `0`: see the counterexample.) -/
theorem find_qubit_pair_max_fidelity (g : String) (t : CalTable)
    (hg : g ∈ gate_list)
    (hlab : ∀ e ∈ t, goodLabel e.1 = true)
    (hpos : ∃ e ∈ t, 0 < (entryFid g e).getD 0) :
    ∃ q1 q2 f, find_qubit_pair (.str g) t = .ok (q1, q2, f) ∧
      (∃ e ∈ t, entryFid g e = some f ∧ parsePair e.1 = .ok (q1, q2)) ∧
      (∀ e ∈ t, ∀ f', entryFid g e = some f' → f' ≤ f) := by
  obtain ⟨e0, he0, hf0⟩ := hpos
  rcases hfe : entryFid g e0 with _ | f0 <;> rw [hfe] at hf0
  · simp at hf0
  · simp only [Option.getD_some] at hf0
    rcases hrun : findLoop g t 0 none with ⟨hf, bp⟩
    rcases findLoop_cases g t 0 none hf bp hrun with ⟨rfl, rfl, hall⟩ |
      ⟨hposf, t1, p, r, t2, hsplit, hbp, hfid, hbefore, hafter⟩
    · exact absurd (hall e0 he0 f0 hfe) (not_le.mpr hf0)
    · subst hbp
      have hmem : (p, r) ∈ t := by
        rw [hsplit]; exact List.mem_append_right _ (List.mem_cons_self _ _)
      obtain ⟨n1, n2, hparse⟩ := parsePair_goodLabel p (hlab (p, r) hmem)
      refine ⟨n1, n2, hf,
        find_qubit_pair_ok_intro g t p n1 n2 hf hg hrun hparse,
        ⟨(p, r), hmem, hfid, hparse⟩, ?_⟩
      intro e' he' f' hfe'
      rw [hsplit] at he'
      rcases List.mem_append.mp he' with h1 | h2
      · exact (hbefore e' h1 f' hfe').le
      · rcases List.mem_cons.mp h2 with rfl | h3
        · rw [hfid] at hfe'
          exact (Option.some.inj hfe').symm.le
        · exact hafter e' h3 f' hfe'

/-- Witness for C1 at the concrete table `tblA` and gate `"CZ"`. -/
theorem find_qubit_pair_max_fidelity_witness :
    ("CZ" ∈ gate_list) ∧
    (∀ e ∈ tblA, goodLabel e.1 = true) ∧
    (∃ e ∈ tblA, 0 < (entryFid "CZ" e).getD 0) ∧
    (∃ q1 q2 f, find_qubit_pair (.str "CZ") tblA = .ok (q1, q2, f) ∧
      (∃ e ∈ tblA, entryFid "CZ" e = some f ∧ parsePair e.1 = .ok (q1, q2)) ∧
      (∀ e ∈ tblA, ∀ f', entryFid "CZ" e = some f' → f' ≤ f)) :=
  ⟨by decide, by decide, by decide,
    find_qubit_pair_max_fidelity "CZ" tblA (by decide) (by decide) (by decide)⟩

/-- Counterexample to C1 as stated: in `tblZero` one entry defines a
fidelity for gate kind `CZ` (namely `0`), yet `find_qubit_pair` does not
return that entry — it raises `UnboundLocalError`, because a fidelity of
`0` never exceeds the initial running maximum `0`. -/
theorem find_qubit_pair_zero_table_counterexample :
    entryFid "CZ" ("0-1", [("fCZ", 0)]) = some 0 ∧
    find_qubit_pair (.str "CZ") tblZero = .error .unboundLocalError :=
  ⟨rfl, rfl⟩

/-- Claim C2: a string gate label outside `{CPHASE, CZ, XY}` raises the
locally defined invalid-argument `ValueError`, and the result is the
same whatever calibration table is present: the table is never
consulted on this path. -/
theorem find_qubit_pair_unknown_gate (s : String) (t t' : CalTable)
    (hs : s ∉ gate_list) :
    find_qubit_pair (.str s) t = .error .valueErrorNotNative ∧
    find_qubit_pair (.str s) t = find_qubit_pair (.str s) t' := by
  have h : ∀ u : CalTable, find_qubit_pair (.str s) u = .error .valueErrorNotNative := by
    intro u
    simp only [find_qubit_pair]
    rw [if_pos hs]
  exact ⟨h t, (h t).trans (h t').symm⟩

/-- Witness for C2 at the unknown label `"Toffoli"`. -/
theorem find_qubit_pair_unknown_gate_witness :
    ("Toffoli" ∉ gate_list) ∧
    (find_qubit_pair (.str "Toffoli") tblA = .error .valueErrorNotNative ∧
     find_qubit_pair (.str "Toffoli") tblA = find_qubit_pair (.str "Toffoli") []) :=
  ⟨by decide, find_qubit_pair_unknown_gate "Toffoli" tblA [] (by decide)⟩

/-- Claim C3: a non-string gate argument raises the locally defined
invalid-argument `ValueError` of the type check. -/
theorem find_qubit_pair_nonstring (v : PyVal) (t : CalTable)
    (hv : v.isStr = false) :
    find_qubit_pair v t = .error .valueErrorNotString := by
  cases v <;> first
    | rfl
    | simp [PyVal.isStr] at hv

/-- Witness for C3 at the integer argument `3`. -/
theorem find_qubit_pair_nonstring_witness :
    (PyVal.int 3).isStr = false ∧
    find_qubit_pair (.int 3) tblA = .error .valueErrorNotString :=
  ⟨rfl, find_qubit_pair_nonstring (.int 3) tblA rfl⟩

/-- Claim C4: when no table entry defines a fidelity for the requested
(native) gate, `find_qubit_pair` does not return normally: it raises
`UnboundLocalError` by reading the never assigned `best_pair` — a
failure guarded by no explicit check. -/
theorem find_qubit_pair_no_defining_entry (g : String) (t : CalTable)
    (hg : g ∈ gate_list) (h : ∀ e ∈ t, entryFid g e = none) :
    find_qubit_pair (.str g) t = .error .unboundLocalError := by
  simp only [find_qubit_pair]
  rw [if_neg (not_not_intro hg), findLoop_all_none g t h 0 none]

/-- Witness for C4: no entry of `tblA` defines an `fCPHASE` fidelity. -/
theorem find_qubit_pair_no_defining_entry_witness :
    ("CPHASE" ∈ gate_list) ∧
    (∀ e ∈ tblA, entryFid "CPHASE" e = none) ∧
    find_qubit_pair (.str "CPHASE") tblA = .error .unboundLocalError :=
  ⟨by decide, by decide,
    find_qubit_pair_no_defining_entry "CPHASE" tblA (by decide) (by decide)⟩

/-- Claim C5: parsing a label made of a digit group, a hyphen and a
second digit group yields the decimal value of the first group as the
first qubit and the decimal value of the second group as the second
qubit. -/
theorem parsePair_digit_label (d1 d2 : List Char)
    (h1 : isDigits d1 = true) (h2 : isDigits d2 = true) :
    parsePair (String.mk (d1 ++ '-' :: d2)) =
      .ok ((digitsVal d1 : Int), (digitsVal d2 : Int)) :=
  parsePair_digits d1 d2 h1 h2

/-- Witness for C5 at the label `"21-36"`: the parse yields 21 and 36. -/
theorem parsePair_digit_label_witness :
    isDigits ['2', '1'] = true ∧ isDigits ['3', '6'] = true ∧
    parsePair "21-36" = .ok (21, 36) :=
  ⟨rfl, rfl, parsePair_digit_label ['2', '1'] ['3', '6'] rfl rfl⟩

/-- Claim C6: a locally defined invalid-argument error is raised exactly
when the gate argument is a non-string or a string outside
`{CPHASE, CZ, XY}`; on a native string label no locally defined error is
raised, whatever the table contains (the remaining failure modes are the
`UnboundLocalError`, `IndexError` and `int()` `ValueError` of the
builtins). -/
theorem find_qubit_pair_local_error_iff (v : PyVal) (t : CalTable) :
    raisesLocal (find_qubit_pair v t) = invalidGateArg v := by
  cases v with
  | str g =>
    by_cases hg : g ∈ gate_list
    · have hinv : invalidGateArg (.str g) = false := by
        simp [invalidGateArg, hg]
      rw [hinv]
      simp only [find_qubit_pair]
      rw [if_neg (not_not_intro hg)]
      split
      · rfl
      · rename_i hf bp heq
        rcases hp : parsePair bp with e | ⟨a, b⟩ <;>
          simp only [Bind.bind, Except.bind, pure, Except.pure]
        · exact parsePair_error bp e hp
        · rfl
    · have hinv : invalidGateArg (.str g) = true := by
        simp [invalidGateArg, hg]
      rw [hinv]
      simp only [find_qubit_pair]
      rw [if_pos hg]
      rfl
  | int n => rfl
  | float q => rfl
  | boolV b => rfl
  | noneV => rfl

/-- Claim C7: when every fidelity stored in the calibration table lies in
the unit interval — as the data model guarantees for provider-reported
scores — every normal return of `find_qubit_pair` carries a fidelity in
the unit interval. -/
theorem find_qubit_pair_fidelity_unit (v : PyVal) (t : CalTable)
    (q1 q2 : Int) (f : ℚ)
    (hunit : ∀ e ∈ t, ∀ kv ∈ e.2, 0 ≤ kv.2 ∧ kv.2 ≤ 1)
    (h : find_qubit_pair v t = .ok (q1, q2, f)) :
    0 ≤ f ∧ f ≤ 1 := by
  cases v with
  | str g =>
    obtain ⟨hg, p, hrun, hp⟩ := find_qubit_pair_ok_elim g t q1 q2 f h
    rcases findLoop_cases g t 0 none f (some p) hrun with ⟨_, habs, _⟩ |
      ⟨hposf, t1, p', r, t2, hsplit, hbp, hfid, _, _⟩
    · cases habs
    · have hmem : (p', r) ∈ t := by
        rw [hsplit]; exact List.mem_append_right _ (List.mem_cons_self _ _)
      have hkv : ("f" ++ g, f) ∈ r := lookupFid_mem _ r f hfid
      exact hunit (p', r) hmem ("f" ++ g, f) hkv
  | int n => cases h
  | float q => cases h
  | boolV b => cases h
  | noneV => cases h

/-- Witness for C7 at the concrete table `tblA`. -/
theorem find_qubit_pair_fidelity_unit_witness :
    (∀ e ∈ tblA, ∀ kv ∈ e.2, 0 ≤ kv.2 ∧ kv.2 ≤ 1) ∧
    find_qubit_pair (.str "CZ") tblA = .ok (21, 36, mkRat 9 10) ∧
    (0 ≤ mkRat 9 10 ∧ mkRat 9 10 ≤ 1) :=
  ⟨by decide, rfl,
    find_qubit_pair_fidelity_unit (.str "CZ") tblA 21 36 (mkRat 9 10)
      (by decide) rfl⟩

/-- Claim C8: on every normal return the selected entry is the FIRST
entry of the table achieving the returned fidelity: every earlier entry
defining the gate lies strictly below it (the strict `>` comparison
means a later entry tying the current maximum never replaces the
selection), and every later entry lies at or below it. -/
theorem find_qubit_pair_first_of_ties (g : String) (t : CalTable)
    (q1 q2 : Int) (f : ℚ)
    (h : find_qubit_pair (.str g) t = .ok (q1, q2, f)) :
    ∃ t1 p r t2, t = t1 ++ (p, r) :: t2 ∧
      parsePair p = .ok (q1, q2) ∧
      entryFid g (p, r) = some f ∧
      (∀ e ∈ t1, ∀ f', entryFid g e = some f' → f' < f) ∧
      (∀ e ∈ t2, ∀ f', entryFid g e = some f' → f' ≤ f) := by
  obtain ⟨hg, p, hrun, hp⟩ := find_qubit_pair_ok_elim g t q1 q2 f h
  rcases findLoop_cases g t 0 none f (some p) hrun with ⟨_, habs, _⟩ |
    ⟨hposf, t1, p', r, t2, hsplit, hbp, hfid, hbefore, hafter⟩
  · cases habs
  · obtain rfl : p = p' := Option.some.inj hbp
    exact ⟨t1, p, r, t2, hsplit, hp, hfid, hbefore, hafter⟩

/-- Witness for C8 at the tied table `tblTie`: the first of the two tied
entries is returned. -/
theorem find_qubit_pair_first_of_ties_witness :
    find_qubit_pair (.str "CZ") tblTie = .ok (1, 2, mkRat 9 10) ∧
    (∃ t1 p r t2, tblTie = t1 ++ (p, r) :: t2 ∧
      parsePair p = .ok (1, 2) ∧
      entryFid "CZ" (p, r) = some (mkRat 9 10) ∧
      (∀ e ∈ t1, ∀ f', entryFid "CZ" e = some f' → f' < mkRat 9 10) ∧
      (∀ e ∈ t2, ∀ f', entryFid "CZ" e = some f' → f' ≤ mkRat 9 10)) :=
  ⟨rfl, find_qubit_pair_first_of_ties "CZ" tblTie 1 2 (mkRat 9 10) rfl⟩

/-- Claim C9: the running maximum starts at `0` and is updated only on a
strictly greater fidelity, so an entry whose fidelity is less than or
equal to `0` is never selected — on EVERY table, every normal return
carries a strictly positive fidelity — and consequently, on a table in
which every entry defining the gate carries fidelity `0`, the loop never
assigns `best_pair` and the parsing step raises `UnboundLocalError`,
even though entries defining the gate exist. -/
theorem find_qubit_pair_zero_fidelity_unbound (g : String) (t : CalTable)
    (q1 q2 : Int) (f : ℚ) :
    (find_qubit_pair (.str g) t = .ok (q1, q2, f) → 0 < f) ∧
    (g ∈ gate_list →
     (∀ e ∈ t, entryFid g e = none ∨ entryFid g e = some 0) →
     (∃ e ∈ t, entryFid g e = some 0) →
     find_qubit_pair (.str g) t = .error .unboundLocalError) := by
  constructor
  · intro h
    obtain ⟨hg, p, hrun, hp⟩ := find_qubit_pair_ok_elim g t q1 q2 f h
    rcases findLoop_cases g t 0 none f (some p) hrun with ⟨_, habs, _⟩ | ⟨hpos, _⟩
    · cases habs
    · exact hpos
  · intro hg hzero _hex
    simp only [find_qubit_pair]
    rw [if_neg (not_not_intro hg), findLoop_all_zero g t hzero]

/-- Witness for C9: on the mixed table `tblMixed` (a negative, a zero and
a positive `fCZ` fidelity) the normal return carries the positive
fidelity, and on the all-zero table `tblZeros` the function raises
`UnboundLocalError`. -/
theorem find_qubit_pair_zero_fidelity_unbound_witness :
    (find_qubit_pair (.str "CZ") tblMixed = .ok (4, 5, mkRat 7 10) ∧
     0 < mkRat 7 10) ∧
    ("CZ" ∈ gate_list) ∧
    (∀ e ∈ tblZeros, entryFid "CZ" e = none ∨ entryFid "CZ" e = some 0) ∧
    (∃ e ∈ tblZeros, entryFid "CZ" e = some 0) ∧
    find_qubit_pair (.str "CZ") tblZeros = .error .unboundLocalError :=
  ⟨⟨rfl,
    (find_qubit_pair_zero_fidelity_unbound "CZ" tblMixed 4 5 (mkRat 7 10)).1 rfl⟩,
   by decide, by decide, by decide,
   (find_qubit_pair_zero_fidelity_unbound "CZ" tblZeros 0 0 0).2
     (by decide) (by decide) (by decide)⟩

/-- Claim C10: `find_qubit_pair` is a pure reader of the program state:
run as a state transformer it returns the state it was given, unchanged,
whether the body returns a result or raises an exception. -/
theorem find_qubit_pair_pure_reader (gate : PyVal) (st : DeviceState) :
    (find_qubit_pair_run gate st).2 = st := rfl

end AllocQubits
